import Mathlib

/-!
# Verification of the wave-function grid application

A shallow embedding of `src/main.py` (class `WaveFunctionApp`) and proofs
about it.

Modelling decisions, each tied to the source:

* A Python `Cell` dataclass compares and hashes by its bounding box only
  (`colour` is declared with `compare=False`), so the Lean `Cell` carries
  just the box; the mutable `colour` attribute of the cached cell objects
  is modelled as a map `Cell → Colour` in the application state (the cached
  list `self._cells` holds one object per distinct box, so the box is a
  faithful key for object identity).
* `range(0, stop, step)` is Python's builtin: its elements are exactly
  `i * step` for `0 ≤ i` with `i * step < stop`, i.e. `i < ⌈stop / step⌉`
  many of them (`len(range(0, stop, step)) = max(0, ceil(stop / step))`).
  `step = 0` raises `ValueError` in Python; the embedding returns `[]` and
  all theorems about grids assume `0 < step`.
* The `cells` property returns `set(self._cells)`.  Python leaves the
  iteration order of a `set` unspecified, so every operation that iterates
  `self.cells` (`fill_all`, `_animate`, `list(self.cells)` in `go_click`)
  is parametrised by an enumeration `ord`, constrained to be a permutation
  of the construction-order list `_get_cells`.
* `tk.Canvas.create_rectangle` calls are recorded in the state as the list
  `calls` of `(cell, colour)` pairs; the `threading.Event` flag
  `animate_running` is the Boolean `running`.  The `animate_stop` event is
  written by `reset` on the main thread and read by the animation thread;
  the loop's reads of it are modelled by a predicate `Nat → Bool` giving
  the value observed at each iteration, and (for the race claims) by an
  explicit interleaving machine further down.
* `time.sleep` and `canvas.update` do not change any modelled state.
-/

/-- The colour strings of the source. -/
abbrev Colour := String

/-- `CELL_DEFAULT_COLOUR = "white"` (main.py line 9). -/
def CELL_DEFAULT_COLOUR : Colour := "white"

/-- The `Cell` dataclass (main.py lines 13-20): identity is the integer
bounding box; the mutable `colour` attribute is excluded from
equality/hash (`compare=False`) and is tracked separately in `AppState`. -/
structure Cell where
  x0 : Nat
  y0 : Nat
  x1 : Nat
  y1 : Nat
deriving DecidableEq, Repr

/-- `step_size` property (main.py lines 47-49): `int(self.width / self.step_count)`,
i.e. the floor of the quotient. -/
def step_size (width step_count : Nat) : Nat :=
  width / step_count

/-- Python's `range(0, stop, step)` for `step > 0`: the ascending list
`[0, step, 2*step, ...]` of all multiples of `step` below `stop`
(`len = ceil(stop/step) = (stop + step - 1) / step`).  For `step = 0`
Python raises; the embedding returns `[]`. -/
def pyRange (stop step : Nat) : List Nat :=
  if step = 0 then [] else (List.range ((stop + step - 1) / step)).map (fun i => i * step)

/-- `_get_cells` (main.py lines 80-87): the nested loops
`for x in range(0, width, step_size): for y in range(0, height, step_size)`
appending `Cell(x, y, x + step_size, y + step_size)`.  Note the box is
**not** truncated at the right/bottom boundary. -/
def get_cells (width height ss : Nat) : List Cell :=
  (pyRange width ss).flatMap (fun x =>
    (pyRange height ss).map (fun y => ⟨x, y, x + ss, y + ss⟩))

/-- The `cells` property (main.py lines 51-55) returns `set(self._cells)`:
the set of cells, forgetting construction order. -/
def gridCells (width height ss : Nat) : Finset Cell :=
  (get_cells width height ss).toFinset

/-! ### Arithmetic facts about `pyRange` -/

lemma lt_ceilDiv_iff {i stop step : Nat} (hs : 0 < step) :
    i < (stop + step - 1) / step ↔ i * step < stop := by
  have h1 : i < (stop + step - 1) / step ↔ i + 1 ≤ (stop + step - 1) / step :=
    Nat.lt_iff_add_one_le
  have h2 : i + 1 ≤ (stop + step - 1) / step ↔ (i + 1) * step ≤ stop + step - 1 :=
    Nat.le_div_iff_mul_le hs
  have h3 : (i + 1) * step = i * step + step := by ring
  rw [h1, h2, h3]
  omega

lemma length_pyRange (stop step : Nat) (hs : 0 < step) :
    (pyRange stop step).length = (stop + step - 1) / step := by
  simp [pyRange, Nat.pos_iff_ne_zero.mp hs]

lemma mem_pyRange {v stop step : Nat} (hs : 0 < step) :
    v ∈ pyRange stop step ↔ step ∣ v ∧ v < stop := by
  simp only [pyRange, if_neg (Nat.pos_iff_ne_zero.mp hs), List.mem_map, List.mem_range]
  constructor
  · rintro ⟨i, hi, rfl⟩
    exact ⟨Dvd.intro i (Nat.mul_comm step i), (lt_ceilDiv_iff hs).mp hi⟩
  · rintro ⟨⟨i, rfl⟩, hv⟩
    exact ⟨i, (lt_ceilDiv_iff hs).mpr (by simpa [Nat.mul_comm] using hv), Nat.mul_comm i step⟩

lemma nodup_pyRange (stop step : Nat) (hs : 0 < step) :
    (pyRange stop step).Nodup := by
  unfold pyRange
  rw [if_neg (Nat.pos_iff_ne_zero.mp hs)]
  refine List.Nodup.map ?_ (List.nodup_range _)
  intro a b hab
  exact Nat.eq_of_mul_eq_mul_right hs hab

/-! ### Cardinality and membership of the generated grid -/

lemma length_flatMap_const {α β : Type} (l : List α) (f : α → List β) (c : Nat)
    (h : ∀ a ∈ l, (f a).length = c) : (l.flatMap f).length = l.length * c := by
  induction l with
  | nil => simp
  | cons a t ih =>
    simp only [List.flatMap_cons, List.length_append, List.length_cons]
    rw [h a (by simp), ih (fun b hb => h b (by simp [hb]))]
    ring

lemma length_get_cells (W H ss : Nat) (hs : 0 < ss) :
    (get_cells W H ss).length = ((W + ss - 1) / ss) * ((H + ss - 1) / ss) := by
  unfold get_cells
  rw [length_flatMap_const _ _ ((H + ss - 1) / ss)
    (fun a _ => by simp [length_pyRange H ss hs]), length_pyRange W ss hs]

lemma nodup_get_cells (W H ss : Nat) (hs : 0 < ss) :
    (get_cells W H ss).Nodup := by
  unfold get_cells
  rw [List.nodup_flatMap]
  refine ⟨fun x _ => ?_, ?_⟩
  · refine List.Nodup.map ?_ (nodup_pyRange H ss hs)
    intro a b hab
    exact congrArg Cell.y0 hab
  · refine List.Pairwise.imp ?_ ((nodup_pyRange W ss hs))
    intro a b hab c hca hcb
    simp only [List.mem_map] at hca hcb
    obtain ⟨ya, _, rfl⟩ := hca
    obtain ⟨yb, _, heq⟩ := hcb
    exact hab (congrArg Cell.x0 heq).symm

lemma mem_get_cells {c : Cell} {W H ss : Nat} (hs : 0 < ss) :
    c ∈ get_cells W H ss ↔
      ss ∣ c.x0 ∧ c.x0 < W ∧ ss ∣ c.y0 ∧ c.y0 < H ∧
        c.x1 = c.x0 + ss ∧ c.y1 = c.y0 + ss := by
  unfold get_cells
  simp only [List.mem_flatMap, List.mem_map]
  constructor
  · rintro ⟨x, hx, y, hy, rfl⟩
    have hx' := (mem_pyRange hs).mp hx
    have hy' := (mem_pyRange hs).mp hy
    exact ⟨hx'.1, hx'.2, hy'.1, hy'.2, rfl, rfl⟩
  · rintro ⟨hdx, hxW, hdy, hyH, hx1, hy1⟩
    refine ⟨c.x0, (mem_pyRange hs).mpr ⟨hdx, hxW⟩,
      c.y0, (mem_pyRange hs).mpr ⟨hdy, hyH⟩, ?_⟩
    cases c
    simp_all

lemma card_gridCells (W H ss : Nat) (hs : 0 < ss) :
    (gridCells W H ss).card = ((W + ss - 1) / ss) * ((H + ss - 1) / ss) := by
  rw [gridCells, List.toFinset_card_of_nodup (nodup_get_cells W H ss hs),
    length_get_cells W H ss hs]

/-! ### Application state and the four operations -/

/-- The mutable state of `WaveFunctionApp` relevant to the claims:
`drawn` is `self._drawn` (a Python set of cells), `colour` gives the
current `colour` attribute of each cached cell object (keyed by its
bounding box), `calls` records every `canvas.create_rectangle` issued by
`colour_cell` (main.py lines 23-26) in order, and `running` is the
`animate_running` event. -/
structure AppState where
  drawn : Finset Cell
  colour : Cell → Colour
  calls : List (Cell × Colour)
  running : Bool

/-- The state after `__init__` (main.py lines 30-41): nothing drawn, every
cell object at the default colour, no draw calls, no animation running. -/
def initState : AppState :=
  ⟨∅, fun _ => CELL_DEFAULT_COLOUR, [], false⟩

/-- `colour_cell` (main.py lines 23-26): one `canvas.create_rectangle`
call with the given fill colour; recorded in `calls`. -/
def colour_cell (st : AppState) (c : Cell) (col : Colour) : AppState :=
  {st with calls := st.calls ++ [(c, col)]}

/-- Assignment `cell.colour = col` on a cached cell object. -/
def setColour (st : AppState) (c : Cell) (col : Colour) : AppState :=
  {st with colour := fun k => if k = c then col else st.colour k}

/-- `go_click` (main.py lines 113-116) after the random choice has picked
the cell `c`: `self.drawn.add(next)` then `colour_cell(next, self.canvas,
"blue")`.  Note it does **not** assign `next.colour`. -/
def go_click (st : AppState) (c : Cell) : AppState :=
  colour_cell {st with drawn := insert c st.drawn} c "blue"

/-- The loop body shared by `fill_all` (lines 120-122) and `_animate`
(lines 141-143): `cell.colour = "blue"; self.drawn.add(cell);
colour_cell(cell, self.canvas, cell.colour)`. -/
def fill_cell (st : AppState) (c : Cell) : AppState :=
  let st1 := setColour st c "blue"
  let st2 := {st1 with drawn := insert c st1.drawn}
  colour_cell st2 c (st2.colour c)

/-- `fill_all` (main.py lines 118-122): iterate the enumeration `ord` of
`self.cells` and run the fill body on each cell. -/
def fill_all (st : AppState) (ord : List Cell) : AppState :=
  ord.foldl fill_cell st

/-- The body of `reset`'s loop (main.py lines 126-128):
`cell.colour = CELL_DEFAULT_COLOUR; colour_cell(cell, self.canvas, cell.colour)`. -/
def reset_cell (st : AppState) (c : Cell) : AppState :=
  let st1 := setColour st c CELL_DEFAULT_COLOUR
  colour_cell st1 c (st1.colour c)

/-- `reset` (main.py lines 124-133): sets the stop event, redraws every
cell of `self.drawn` (in the set's enumeration order `ord`) in the default
colour, sleeps, clears the stop event, and replaces `self.drawn` by a
fresh empty set.  The stop event's interplay with a concurrently running
loop is modelled separately by the interleaving machine below. -/
def reset (st : AppState) (ord : List Cell) : AppState :=
  {ord.foldl reset_cell st with drawn := ∅}

/-- The loop of `_animate` (main.py lines 136-145), carrying the iteration
index `k`: at each cell the loop first reads `animate_stop.is_set()` —
the value observed at iteration `k` is `f k`, since the event is written
concurrently — and breaks if it is true; otherwise, if the cell is not in
`self.drawn`, it runs the fill body.  Falling off the list or breaking
executes line 146, `self.animate_running.clear()`. -/
def animGo (f : Nat → Bool) : List Cell → Nat → AppState → AppState
  | [], _, st => {st with running := false}
  | c :: rest, k, st =>
    if f k then {st with running := false}
    else if c ∈ st.drawn then animGo f rest (k + 1) st
    else animGo f rest (k + 1) (fill_cell st c)

/-- `_animate` (main.py lines 135-146) run on the enumeration `ord` of
`self.cells`, observing stop-flag values `f`. -/
def animate_loop (st : AppState) (ord : List Cell) (f : Nat → Bool) : AppState :=
  animGo f ord 0 st

/-- `animate` (main.py lines 148-151): if `animate_running` is set, do
nothing; otherwise set it and spawn the loop thread.  The second component
records whether a thread was spawned. -/
def animate (st : AppState) : AppState × Bool :=
  if st.running then (st, false) else ({st with running := true}, true)

/-! ### Component lemmas for the operations -/

@[simp] lemma colour_cell_drawn (st : AppState) (c : Cell) (col : Colour) :
    (colour_cell st c col).drawn = st.drawn := rfl

@[simp] lemma fill_cell_drawn (st : AppState) (c : Cell) :
    (fill_cell st c).drawn = insert c st.drawn := rfl

@[simp] lemma fill_cell_running (st : AppState) (c : Cell) :
    (fill_cell st c).running = st.running := rfl

@[simp] lemma fill_cell_calls (st : AppState) (c : Cell) :
    (fill_cell st c).calls = st.calls ++ [(c, "blue")] := by
  simp [fill_cell, colour_cell, setColour]

@[simp] lemma fill_cell_colour (st : AppState) (c k : Cell) :
    (fill_cell st c).colour k = if k = c then "blue" else st.colour k := rfl

@[simp] lemma reset_cell_colour (st : AppState) (c k : Cell) :
    (reset_cell st c).colour k = if k = c then CELL_DEFAULT_COLOUR else st.colour k := rfl

@[simp] lemma reset_cell_drawn (st : AppState) (c : Cell) :
    (reset_cell st c).drawn = st.drawn := rfl

@[simp] lemma go_click_drawn (st : AppState) (c : Cell) :
    (go_click st c).drawn = insert c st.drawn := rfl

@[simp] lemma go_click_colour (st : AppState) (c : Cell) :
    (go_click st c).colour = st.colour := rfl

@[simp] lemma go_click_calls (st : AppState) (c : Cell) :
    (go_click st c).calls = st.calls ++ [(c, "blue")] := rfl

lemma fill_all_drawn (ord : List Cell) (st : AppState) :
    (fill_all st ord).drawn = st.drawn ∪ ord.toFinset := by
  induction ord generalizing st with
  | nil => simp [fill_all]
  | cons a t ih =>
    show (fill_all (fill_cell st a) t).drawn = _
    rw [ih]
    simp [Finset.insert_union, Finset.union_insert]

lemma fill_all_calls (ord : List Cell) (st : AppState) :
    (fill_all st ord).calls = st.calls ++ ord.map (fun c => (c, "blue")) := by
  induction ord generalizing st with
  | nil => simp [fill_all]
  | cons a t ih =>
    show (fill_all (fill_cell st a) t).calls = _
    rw [ih]
    simp

lemma fill_all_colour (ord : List Cell) (st : AppState) (c : Cell) :
    (fill_all st ord).colour c = if c ∈ ord then "blue" else st.colour c := by
  induction ord generalizing st with
  | nil => simp [fill_all]
  | cons a t ih =>
    show (fill_all (fill_cell st a) t).colour c = _
    rw [ih]
    by_cases hct : c ∈ t
    · simp [hct]
    · by_cases hca : c = a <;> simp [hct, hca]

lemma fill_all_running (ord : List Cell) (st : AppState) :
    (fill_all st ord).running = st.running := by
  induction ord generalizing st with
  | nil => rfl
  | cons a t ih => exact ih (fill_cell st a)

@[simp] lemma reset_drawn (st : AppState) (ord : List Cell) :
    (reset st ord).drawn = ∅ := rfl

lemma reset_foldl_colour (ord : List Cell) (st : AppState) (c : Cell) :
    (ord.foldl reset_cell st).colour c =
      if c ∈ ord then CELL_DEFAULT_COLOUR else st.colour c := by
  induction ord generalizing st with
  | nil => simp
  | cons a t ih =>
    show ((t.foldl reset_cell (reset_cell st a))).colour c = _
    rw [ih]
    by_cases hct : c ∈ t
    · simp [hct]
    · by_cases hca : c = a <;> simp [hct, hca]

lemma reset_colour (st : AppState) (ord : List Cell) (c : Cell) :
    (reset st ord).colour c =
      if c ∈ ord then CELL_DEFAULT_COLOUR else st.colour c := by
  show (ord.foldl reset_cell st).colour c = _
  exact reset_foldl_colour ord st c

/-! ### Behaviour of the animation loop -/

/-- Index of the first iteration at which the loop would observe the stop
flag: the least `i < n` with `f (k + i) = true`, or `n` when there is
none (`n` is the number of remaining iterations, `k` the index of the
first one). -/
def firstStop (f : Nat → Bool) (k : Nat) : Nat → Nat
  | 0 => 0
  | n + 1 => if f k then 0 else firstStop f (k + 1) n + 1

lemma firstStop_of_all_false {f : Nat → Bool} (hf : ∀ j, f j = false)
    (k n : Nat) : firstStop f k n = n := by
  induction n generalizing k with
  | zero => rfl
  | succ n ih => simp [firstStop, hf k, ih]

lemma firstStop_eq {f : Nat → Bool} {t n : Nat} (k : Nat) (hn : t < n)
    (ht : f (k + t) = true) (hbefore : ∀ j < t, f (k + j) = false) :
    firstStop f k n = t := by
  induction t generalizing k n with
  | zero =>
    obtain ⟨m, rfl⟩ := Nat.exists_eq_add_of_lt hn
    simp [firstStop, Nat.add_comm, show f k = true by simpa using ht]
  | succ t ih =>
    obtain ⟨m, rfl⟩ := Nat.exists_eq_add_of_lt hn
    have hk : f k = false := by simpa using hbefore 0 (Nat.succ_pos t)
    have : firstStop f (k + 1) (t + m + 1) = t := by
      refine ih (k + 1) (by omega) (by rw [show k + 1 + t = k + (t + 1) by ring]; exact ht)
        (fun j hj => by
          rw [show k + 1 + j = k + (j + 1) by ring]
          exact hbefore (j + 1) (by omega))
    rw [show t + 1 + m + 1 = (t + m + 1) + 1 by ring]
    show (if f k then 0 else firstStop f (k + 1) (t + m + 1) + 1) = t + 1
    rw [if_neg (by simp [hk]), this]

lemma animGo_running (f : Nat → Bool) (ord : List Cell) (k : Nat) (st : AppState) :
    (animGo f ord k st).running = false := by
  induction ord generalizing k st with
  | nil => rfl
  | cons a t ih =>
    by_cases hk : f k
    · simp [animGo, hk]
    · by_cases hd : a ∈ st.drawn <;> simp [animGo, hk, hd, ih]

lemma animGo_drawn (f : Nat → Bool) (ord : List Cell) (k : Nat) (st : AppState) :
    (animGo f ord k st).drawn =
      st.drawn ∪ (ord.take (firstStop f k ord.length)).toFinset := by
  induction ord generalizing k st with
  | nil => simp [animGo]
  | cons a t ih =>
    by_cases hk : f k
    · simp [animGo, hk, firstStop]
    · by_cases hd : a ∈ st.drawn
      · rw [show animGo f (a :: t) k st = animGo f t (k + 1) st by
          simp [animGo, hk, hd], ih]
        have : st.drawn ∪ insert a (t.take (firstStop f (k + 1) t.length)).toFinset =
            st.drawn ∪ (t.take (firstStop f (k + 1) t.length)).toFinset := by
          rw [Finset.union_insert, Finset.insert_eq_self.mpr (Finset.mem_union_left _ hd)]
        simp [firstStop, hk, List.take_cons, this]
      · rw [show animGo f (a :: t) k st = animGo f t (k + 1) (fill_cell st a) by
          simp [animGo, hk, hd], ih]
        simp [firstStop, hk, List.take_cons, Finset.insert_union, Finset.union_insert]

lemma animGo_calls {f : Nat → Bool} (hf : ∀ j, f j = false) (ord : List Cell)
    (hnd : ord.Nodup) (k : Nat) (st : AppState)
    (hfresh : ∀ c ∈ ord, c ∉ st.drawn) :
    (animGo f ord k st).calls = st.calls ++ ord.map (fun c => (c, "blue")) := by
  induction ord generalizing k st with
  | nil => simp [animGo]
  | cons a t ih =>
    have hd : a ∉ st.drawn := hfresh a (by simp)
    rw [show animGo f (a :: t) k st = animGo f t (k + 1) (fill_cell st a) by
      simp [animGo, hf k, hd]]
    rw [ih (List.Nodup.of_cons hnd) (k + 1) (fill_cell st a) ?_]
    · simp
    · intro c hc
      have hca : c ≠ a := fun h => (List.nodup_cons.mp hnd).1 (h ▸ hc)
      simp only [fill_cell_drawn, Finset.mem_insert]
      exact fun h => (h.elim hca (hfresh c (by simp [hc])))

lemma animGo_colour_mem_drawn {f : Nat → Bool} (ord : List Cell) (k : Nat)
    (st : AppState) (c : Cell) (hc : c ∈ st.drawn) :
    (animGo f ord k st).colour c = st.colour c := by
  induction ord generalizing k st with
  | nil => rfl
  | cons a t ih =>
    by_cases hk : f k
    · simp [animGo, hk]
    · by_cases hd : a ∈ st.drawn
      · rw [show animGo f (a :: t) k st = animGo f t (k + 1) st by
          simp [animGo, hk, hd]]
        exact ih k.succ st hc
      · rw [show animGo f (a :: t) k st = animGo f t (k + 1) (fill_cell st a) by
          simp [animGo, hk, hd]]
        have hne : c ≠ a := fun h => hd (h ▸ hc)
        rw [ih k.succ (fill_cell st a) (by simp [hc])]
        simp [hne]

lemma animGo_colour_filled {f : Nat → Bool} (hf : ∀ j, f j = false)
    (ord : List Cell) (k : Nat) (st : AppState) (c : Cell)
    (hc : c ∈ ord) (hnd : c ∉ st.drawn) :
    (animGo f ord k st).colour c = "blue" := by
  induction ord generalizing k st with
  | nil => simp at hc
  | cons a t ih =>
    by_cases hd : a ∈ st.drawn
    · rw [show animGo f (a :: t) k st = animGo f t (k + 1) st by
        simp [animGo, hf k, hd]]
      have hca : c ≠ a := fun h => hnd (h ▸ hd)
      exact ih (k + 1) st ((List.mem_cons.mp hc).resolve_left hca) hnd
    · rw [show animGo f (a :: t) k st = animGo f t (k + 1) (fill_cell st a) by
        simp [animGo, hf k, hd]]
      by_cases hca : c = a
      · subst hca
        rw [animGo_colour_mem_drawn t (k + 1) (fill_cell st c) c (by simp)]
        simp
      · rw [ih (k + 1) (fill_cell st a) ((List.mem_cons.mp hc).resolve_left hca)
          (by simp [hca, hnd])]

/-! ### Reachable states -/

/-- The states of the application attainable from `__init__` by the four
user operations, with each set enumeration constrained to enumerate the
set actually iterated. -/
inductive Reachable (W H ss : Nat) : AppState → Prop where
  | init : Reachable W H ss initState
  | click {st : AppState} {c : Cell} : Reachable W H ss st →
      c ∈ gridCells W H ss → Reachable W H ss (go_click st c)
  | fillAllOp {st : AppState} {ord : List Cell} : Reachable W H ss st →
      List.Perm ord (get_cells W H ss) → Reachable W H ss (fill_all st ord)
  | resetOp {st : AppState} {ord : List Cell} : Reachable W H ss st →
      List.Perm ord st.drawn.toList → Reachable W H ss (reset st ord)
  | animOp {st : AppState} {ord : List Cell} {f : Nat → Bool} :
      Reachable W H ss st → List.Perm ord (get_cells W H ss) →
      Reachable W H ss (animate_loop st ord f)

lemma toFinset_eq_of_perm {ord l : List Cell} (h : List.Perm ord l) :
    ord.toFinset = l.toFinset :=
  List.toFinset.ext_iff.mpr (fun _ => h.mem_iff)

/-- Invariant: the filled set of a reachable state only contains grid
cells. -/
lemma drawn_subset_of_reachable {W H ss : Nat} {st : AppState}
    (h : Reachable W H ss st) : st.drawn ⊆ gridCells W H ss := by
  induction h with
  | init => simp [initState]
  | click hst hmem ih =>
    rw [go_click_drawn]
    exact Finset.insert_subset hmem ih
  | fillAllOp hst hperm ih =>
    rw [fill_all_drawn]
    exact Finset.union_subset ih (by rw [toFinset_eq_of_perm hperm, gridCells])
  | resetOp hst hperm ih => simp
  | animOp hst hperm ih =>
    rw [animate_loop, animGo_drawn]
    refine Finset.union_subset ih ?_
    intro c hc
    rw [gridCells, List.mem_toFinset, ← hperm.mem_iff]
    exact List.mem_of_mem_take (List.mem_toFinset.mp hc)

/-! ### The running flag, as a trace property

`animate` (main.py lines 148-151) is only ever executed on the Tk main
thread (it is a button callback, and Tk callbacks are serialised), so the
check-then-set of `animate_running` is atomic with respect to its only
other writer, the final `animate_running.clear()` of `_animate` (line
146).  The machine below tracks the flag together with a ghost count of
animation-loop threads that have been spawned and not yet finished. -/

structure AnimFlags where
  running : Bool
  active : Nat
deriving DecidableEq, Repr

/-- Effect of one `animate` button press on the flag state (lines 149-151):
spawn a loop thread only when the running flag is clear. -/
def animateClick (s : AnimFlags) : AnimFlags :=
  if s.running then s else ⟨true, s.active + 1⟩

/-- Effect of an animation-loop thread terminating (line 146):
`animate_running.clear()` and the thread goes away. -/
def loopFinish (s : AnimFlags) : AnimFlags :=
  ⟨false, s.active - 1⟩

/-- Flag states reachable from start-up; `loopFinish` can only be
performed by a live loop thread, hence requires `1 ≤ active`. -/
inductive FlagReach : AnimFlags → Prop where
  | init : FlagReach ⟨false, 0⟩
  | click {s : AnimFlags} : FlagReach s → FlagReach (animateClick s)
  | finish {s : AnimFlags} : FlagReach s → 1 ≤ s.active → FlagReach (loopFinish s)

lemma flagReach_invariant {s : AnimFlags} (h : FlagReach s) :
    s.active = if s.running then 1 else 0 := by
  induction h with
  | init => rfl
  | click hs ih =>
    rename_i s
    by_cases hr : s.running
    · simpa [animateClick, hr] using ih
    · simp [animateClick, hr] at ih ⊢
      omega
  | finish hs hact ih =>
    rename_i s
    simp only [loopFinish]
    have : s.active ≤ 1 := by by_cases hr : s.running <;> simp [hr] at ih <;> omega
    simp
    omega

lemma flagReach_active_le_one {s : AnimFlags} (h : FlagReach s) :
    s.active ≤ 1 := by
  have := flagReach_invariant h
  by_cases hr : s.running <;> simp [hr] at this <;> omega

/-! ### Interleaving of `reset` with a running animation loop

To settle the race claim we model the two threads explicitly at the
granularity of the source statements that touch shared state.  The shared
state is the `animate_stop` event and `self.drawn`; the animation thread's
program counter is its position in the cell enumeration, the main
thread's is its position inside the body of `reset`.  Each modelled step
is a contiguous block of source statements executed by one thread with no
access to shared state in between, so any schedule of these steps is a
legal interleaving of the real threads. -/

structure RaceConfig where
  stop : Bool
  drawn : Finset Cell
  animIdx : Nat
  animDone : Bool
  resetPc : Nat
deriving DecidableEq

/-- One iteration of the animation thread (main.py lines 136-146) on the
enumeration `ord`: if the loop is over the thread is done (running flag
cleared, modelled by `animDone`); otherwise it reads `animate_stop` and
breaks, skips an already-drawn cell, or fills the current cell. -/
def raceAnimStep (ord : List Cell) (c : RaceConfig) : RaceConfig :=
  if c.animDone then c
  else
    match ord[c.animIdx]? with
    | none => {c with animDone := true}
    | some cell =>
      if c.stop then {c with animDone := true}
      else if cell ∈ c.drawn then {c with animIdx := c.animIdx + 1}
      else {c with drawn := insert cell c.drawn, animIdx := c.animIdx + 1}

/-- One statement of `reset` on the main thread (main.py lines 124-133):
pc 0 is `animate_stop.set()`, pc 1 the redraw loop over `self.drawn`
(touches only cell colours and the canvas, no modelled shared state),
pc 2 is `time.sleep(0.5); animate_stop.clear()`, pc 3 is
`self.drawn = set()`; pc 4 means `reset` has returned. -/
def raceResetStep (c : RaceConfig) : RaceConfig :=
  match c.resetPc with
  | 0 => {c with stop := true, resetPc := 1}
  | 1 => {c with resetPc := 2}
  | 2 => {c with stop := false, resetPc := 3}
  | 3 => {c with drawn := ∅, resetPc := 4}
  | _ => c

/-- Run one step of the chosen thread: `true` schedules the main thread
(inside `reset`), `false` the animation thread. -/
def raceStep (ord : List Cell) (c : RaceConfig) (who : Bool) : RaceConfig :=
  if who then raceResetStep c else raceAnimStep ord c

/-- Execute a schedule (a list of thread choices). -/
def raceRun (ord : List Cell) (c : RaceConfig) (sched : List Bool) : RaceConfig :=
  sched.foldl (raceStep ord) c

/-- Configuration with the animation loop just started (one reset call is
about to begin): nothing drawn yet, stop clear. -/
def raceInit : RaceConfig :=
  ⟨false, ∅, 0, false, 0⟩

/-- The schedule exhibiting the race: the loop fills its first cell, then
the whole of `reset` runs (set stop, redraw, sleep + clear stop, empty the
set, return), then the loop runs on. -/
def raceSched : List Bool :=
  [false, true, true, true, true, false, false, false, false]

/-! ### The claims -/

/-- C1: for every width `W > 0`, height `H > 0` and step count `S` with
`step_size = ⌊W / S⌋ > 0`, the grid produced by `_get_cells` contains
exactly `⌈W / step_size⌉ * ⌈H / step_size⌉` distinct cells. -/
theorem C1_cell_count (W H S : Nat) (_hW : 0 < W) (_hH : 0 < H)
    (hss : 0 < step_size W S) :
    (gridCells W H (step_size W S)).card =
      ((W + step_size W S - 1) / step_size W S) *
        ((H + step_size W S - 1) / step_size W S) :=
  card_gridCells W H (step_size W S) hss

/-- Witness for C1 at the reference instantiation `W = H = 1000`,
`S = 100`: `step_size = 10` and the grid has `10000` distinct cells. -/
theorem C1_cell_count_witness :
    0 < 1000 ∧ 0 < step_size 1000 100 ∧
      (gridCells 1000 1000 (step_size 1000 100)).card = 10000 := by
  refine ⟨by norm_num, by norm_num [step_size], ?_⟩
  rw [C1_cell_count 1000 1000 100 (by norm_num) (by norm_num)
    (by norm_num [step_size])]
  norm_num [step_size]

/-- C2: from every reachable state of the application (so for every
contents the filled set can actually have), one call to `fill_all` leaves
the filled set exactly equal to the grid's cell set, and issues one
redraw call per grid cell. -/
theorem C2_fill_all_exact (W H ss : Nat) (st : AppState) (ord : List Cell)
    (hss : 0 < ss) (hst : Reachable W H ss st)
    (hperm : List.Perm ord (get_cells W H ss)) :
    (fill_all st ord).drawn = gridCells W H ss ∧
      (fill_all st ord).calls.length = st.calls.length + (gridCells W H ss).card := by
  constructor
  · rw [fill_all_drawn, toFinset_eq_of_perm hperm]
    exact Finset.union_eq_right.mpr (drawn_subset_of_reachable hst)
  · rw [fill_all_calls]
    simp only [List.length_append, List.length_map]
    rw [hperm.length_eq, gridCells,
      List.toFinset_card_of_nodup (nodup_get_cells W H ss hss)]

/-- Witness for C2 on the 2×2 grid (`W = H = 4`, `ss = 2`), starting from
the freshly initialised state. -/
theorem C2_fill_all_exact_witness :
    0 < 2 ∧
      (fill_all initState (get_cells 4 4 2)).drawn = gridCells 4 4 2 ∧
      (fill_all initState (get_cells 4 4 2)).calls.length =
        initState.calls.length + (gridCells 4 4 2).card :=
  ⟨by norm_num,
    C2_fill_all_exact 4 4 2 initState (get_cells 4 4 2) (by norm_num)
      Reachable.init (List.Perm.refl _)⟩

/-- C3: after any sequence of operations (any reachable state), one
`reset` call leaves the filled set empty, and every cell that was in the
filled set has its `colour` attribute back at the default when `reset`
returns. -/
theorem C3_reset_clears (W H ss : Nat) (st : AppState) (ord : List Cell)
    (_hst : Reachable W H ss st) (hord : List.Perm ord st.drawn.toList) :
    (reset st ord).drawn = ∅ ∧
      ∀ c ∈ st.drawn, (reset st ord).colour c = CELL_DEFAULT_COLOUR := by
  refine ⟨rfl, fun c hc => ?_⟩
  rw [reset_colour]
  simp [hord.mem_iff.mpr (Finset.mem_toList.mpr hc)]

/-- Witness for C3: click one cell of the 2×2 grid, then reset. -/
theorem C3_reset_clears_witness :
    (reset (go_click initState ⟨0, 0, 2, 2⟩)
        (go_click initState ⟨0, 0, 2, 2⟩).drawn.toList).drawn = ∅ ∧
      ∀ c ∈ (go_click initState ⟨0, 0, 2, 2⟩).drawn,
        (reset (go_click initState ⟨0, 0, 2, 2⟩)
          (go_click initState ⟨0, 0, 2, 2⟩).drawn.toList).colour c =
            CELL_DEFAULT_COLOUR :=
  C3_reset_clears 4 4 2 (go_click initState ⟨0, 0, 2, 2⟩) _
    (Reachable.click Reachable.init (by decide)) (List.Perm.refl _)

/-- C4 as written is false: if the filled set already covers the grid when
the loop starts (here: right after `fill_all`), a stop signal observed at
the very first iteration (`0 < |ord|`, so before completion) terminates
the loop early, yet the filled set equals the grid — not a proper
subset. -/
theorem C4_counterexample :
    (fun _ => true : Nat → Bool) 0 = true ∧
      0 < (get_cells 4 4 2).length ∧
      ¬ (animate_loop (fill_all initState (get_cells 4 4 2))
          (get_cells 4 4 2) (fun _ => true)).drawn ⊂ gridCells 4 4 2 :=
  ⟨rfl, by decide, by decide⟩

/-- C4 (amended): if the loop runs to completion with the stop signal
never observed, the filled set of any start state whose filled cells lie
in the grid ends equal to the full grid set; if the stop signal is first
observed at iteration `t` before completion **and the loop started from
an empty filled set**, the loop terminates early and the filled set is a
proper subset of the grid; in all cases the running flag is cleared when
the loop exits. -/
theorem C4_animation_loop (W H ss : Nat) (st : AppState) (ord : List Cell)
    (f : Nat → Bool) (hss : 0 < ss)
    (hperm : List.Perm ord (get_cells W H ss)) :
    ((∀ j, f j = false) → st.drawn ⊆ gridCells W H ss →
        (animate_loop st ord f).drawn = gridCells W H ss) ∧
      (∀ t, t < ord.length → f t = true → (∀ j, j < t → f j = false) →
        st.drawn = ∅ → (animate_loop st ord f).drawn ⊂ gridCells W H ss) ∧
      (animate_loop st ord f).running = false := by
  refine ⟨fun hf hsub => ?_, fun t ht hft hbefore hd => ?_, animGo_running f ord 0 st⟩
  · rw [animate_loop, animGo_drawn, firstStop_of_all_false hf,
      List.take_length, toFinset_eq_of_perm hperm]
    exact Finset.union_eq_right.mpr hsub
  · have hfs : firstStop f 0 ord.length = t :=
      firstStop_eq 0 ht (by simpa using hft) (fun j hj => by simpa using hbefore j hj)
    rw [animate_loop, animGo_drawn, hfs, hd, Finset.empty_union]
    have hsub : (ord.take t).toFinset ⊆ gridCells W H ss := by
      intro c hc
      exact List.mem_toFinset.mpr
        (hperm.mem_iff.mp (List.mem_of_mem_take (List.mem_toFinset.mp hc)))
    have hcard : ((ord.take t).toFinset).card < (gridCells W H ss).card := by
      have h1 : ((ord.take t).toFinset).card ≤ t := by
        calc ((ord.take t).toFinset).card ≤ (ord.take t).length :=
              List.toFinset_card_le _
          _ ≤ t := by rw [List.length_take]; omega
      have h2 : (gridCells W H ss).card = ord.length := by
        rw [gridCells, List.toFinset_card_of_nodup (nodup_get_cells W H ss hss),
          hperm.length_eq]
      omega
    rw [Finset.ssubset_def]
    exact ⟨hsub, fun hts => absurd (Finset.card_le_card hts) (by omega)⟩

/-- Witness for C4 on the 2×2 grid: a full run from the initial state
fills the grid; a run stopped at iteration 1 yields a proper subset; the
running flag ends cleared. -/
theorem C4_animation_loop_witness :
    (animate_loop initState (get_cells 4 4 2) (fun _ => false)).drawn =
        gridCells 4 4 2 ∧
      (animate_loop initState (get_cells 4 4 2)
          (fun j => decide (1 ≤ j))).drawn ⊂ gridCells 4 4 2 ∧
      (animate_loop initState (get_cells 4 4 2) (fun _ => false)).running = false := by
  have h1 := C4_animation_loop 4 4 2 initState (get_cells 4 4 2)
    (fun _ => false) (by norm_num) (List.Perm.refl _)
  have h2 := C4_animation_loop 4 4 2 initState (get_cells 4 4 2)
    (fun j => decide (1 ≤ j)) (by norm_num) (List.Perm.refl _)
  refine ⟨h1.1 (fun _ => rfl) (by simp [initState, gridCells]), ?_, h1.2.2⟩
  exact h2.2.1 1 (by decide) (by decide)
    (fun j hj => by simp only [decide_eq_false_iff_not]; omega) rfl

/-- C5: whatever index the random choice picks in the enumeration of
`self.cells`, `go_click` adds a member of the grid's cell set to the
filled set (the enumeration covers the full grid, not only unfilled
cells), and adding a cell already present leaves the filled set
unchanged, so two clicks on the same cell yield one membership. -/
theorem C5_go_click_grid (W H ss : Nat) (st : AppState) (ord : List Cell)
    (hperm : List.Perm ord (get_cells W H ss)) (i : Nat) (hi : i < ord.length) :
    ord.get ⟨i, hi⟩ ∈ gridCells W H ss ∧
      (go_click st (ord.get ⟨i, hi⟩)).drawn = insert (ord.get ⟨i, hi⟩) st.drawn ∧
      (go_click (go_click st (ord.get ⟨i, hi⟩)) (ord.get ⟨i, hi⟩)).drawn =
        (go_click st (ord.get ⟨i, hi⟩)).drawn := by
  refine ⟨List.mem_toFinset.mpr (hperm.mem_iff.mp (ord.get_mem i hi)), rfl, ?_⟩
  simp [go_click]

/-- Witness for C5: index 0 of the construction-order enumeration of the
2×2 grid, clicked twice from the initial state. -/
theorem C5_go_click_grid_witness :
    (get_cells 4 4 2).get ⟨0, by decide⟩ ∈ gridCells 4 4 2 ∧
      (go_click initState ((get_cells 4 4 2).get ⟨0, by decide⟩)).drawn =
        insert ((get_cells 4 4 2).get ⟨0, by decide⟩) initState.drawn ∧
      (go_click (go_click initState ((get_cells 4 4 2).get ⟨0, by decide⟩))
          ((get_cells 4 4 2).get ⟨0, by decide⟩)).drawn =
        (go_click initState ((get_cells 4 4 2).get ⟨0, by decide⟩)).drawn :=
  C5_go_click_grid 4 4 2 initState (get_cells 4 4 2) (List.Perm.refl _) 0 (by decide)

/-- C6 as written is false: `fill_all` iterates `self.cells`, which is
`set(self._cells)`, and a set enumeration need not follow grid-construction
order.  Here a legal enumeration of the 2×2 grid's cell set (a permutation
of the construction list) produces a draw-call sequence different from the
construction order. -/
theorem C6_counterexample :
    List.Perm [(⟨0, 2, 2, 4⟩ : Cell), ⟨0, 0, 2, 2⟩, ⟨2, 0, 4, 2⟩, ⟨2, 2, 4, 4⟩]
        (get_cells 4 4 2) ∧
      (fill_all initState
          [(⟨0, 2, 2, 4⟩ : Cell), ⟨0, 0, 2, 2⟩, ⟨2, 0, 4, 2⟩, ⟨2, 2, 4, 4⟩]).calls ≠
        (get_cells 4 4 2).map (fun c => (c, "blue")) := by
  exact ⟨by decide, by decide⟩

/-- C6 (amended): within one call to `fill_all`, and within one
uninterrupted pass of the animation loop started from an empty filled
set, the draw-call sequence is exactly the enumeration order of the
materialised cell set — a permutation of the grid-construction order, so
each grid cell is visited exactly once — but the construction order
itself is not guaranteed, because `cells` returns `set(self._cells)`. -/
theorem C6_visit_order (W H ss : Nat) (st : AppState) (ord : List Cell)
    (f : Nat → Bool) (hss : 0 < ss)
    (hperm : List.Perm ord (get_cells W H ss)) :
    (fill_all st ord).calls = st.calls ++ ord.map (fun c => (c, "blue")) ∧
      List.Perm (ord.map (fun c => (c, ("blue" : Colour))))
        ((get_cells W H ss).map (fun c => (c, "blue"))) ∧
      (st.drawn = ∅ → (∀ j, f j = false) →
        (animate_loop st ord f).calls = st.calls ++ ord.map (fun c => (c, "blue"))) := by
  refine ⟨fill_all_calls ord st, hperm.map _, fun hd hf => ?_⟩
  exact animGo_calls hf ord (hperm.symm.nodup (nodup_get_cells W H ss hss))
    0 st (fun c _ => by simp [hd])

/-- Witness for C6 on the 2×2 grid with the construction-order
enumeration. -/
theorem C6_visit_order_witness :
    (fill_all initState (get_cells 4 4 2)).calls =
        initState.calls ++ (get_cells 4 4 2).map (fun c => (c, "blue")) ∧
      List.Perm ((get_cells 4 4 2).map (fun c => (c, ("blue" : Colour))))
        ((get_cells 4 4 2).map (fun c => (c, "blue"))) ∧
      (initState.drawn = ∅ → (∀ j : Nat, (fun _ => false) j = false) →
        (animate_loop initState (get_cells 4 4 2) (fun _ => false)).calls =
          initState.calls ++ (get_cells 4 4 2).map (fun c => (c, "blue"))) :=
  C6_visit_order 4 4 2 initState (get_cells 4 4 2) (fun _ => false)
    (by norm_num) (List.Perm.refl _)

/-- C7 as written is false: with `W = H = 5` and `S = 2` (`step_size = 2`,
`5` not divisible by `2`), the grid does contain a final-strip cell, but
its bounding box is `(4, 0, 6, 2)`: full-size (`x1 - x0 = step_size`, not
truncated) and sticking out past the boundary (`x1 = 6 > 5 = width`). -/
theorem C7_counterexample :
    (⟨4, 0, 6, 2⟩ : Cell) ∈ get_cells 5 5 (step_size 5 2) ∧
      ¬ ((6 : Nat) ≤ 5) ∧ 6 - 4 = step_size 5 2 := by
  exact ⟨by decide, by decide, by decide⟩

/-- C7 (amended): when the width is not evenly divisible by `step_size`,
the grid still contains cells for the final strip (the ranges run while
the coordinate is `< width` / `< height`), but those cells are **not**
truncated: every cell's box is full-size (`x1 = x0 + step_size`,
`y1 = y0 + step_size`), so the final strip sticks out past the boundary
and every cell's box lies within `[0, width + step_size) ×
[0, height + step_size)` rather than `[0, width] × [0, height]`. -/
theorem C7_boundary_policy (W H S : Nat) (hH : 0 < H)
    (hss : 0 < step_size W S) (hndvd : ¬ step_size W S ∣ W) :
    (∃ c ∈ get_cells W H (step_size W S), c.x0 < W ∧ W < c.x1) ∧
      ∀ c ∈ get_cells W H (step_size W S),
        c.x1 = c.x0 + step_size W S ∧ c.y1 = c.y0 + step_size W S ∧
          c.x0 < W ∧ c.y0 < H ∧ c.x1 < W + step_size W S ∧
          c.y1 < H + step_size W S := by
  have hW : 0 < W := by
    rcases Nat.eq_zero_or_pos W with h0 | h
    · subst h0
      simp [step_size] at hss
    · exact h
  set ss := step_size W S with hssdef
  constructor
  · refine ⟨⟨ss * ((W - 1) / ss), 0, ss * ((W - 1) / ss) + ss, 0 + ss⟩, ?_, ?_, ?_⟩
    · rw [mem_get_cells hss]
      refine ⟨Dvd.intro _ rfl, ?_, dvd_zero ss, hH, rfl, rfl⟩
      have h1 := Nat.div_mul_le_self (W - 1) ss
      calc ss * ((W - 1) / ss) = (W - 1) / ss * ss := Nat.mul_comm _ _
        _ ≤ W - 1 := h1
        _ < W := by omega
    · show ss * ((W - 1) / ss) < W
      have h1 := Nat.div_mul_le_self (W - 1) ss
      have := Nat.mul_comm ss ((W - 1) / ss)
      omega
    · show W < ss * ((W - 1) / ss) + ss
      have h1 := Nat.div_add_mod (W - 1) ss
      have h2 := Nat.mod_lt (W - 1) hss
      rcases Nat.lt_or_ge W (ss * ((W - 1) / ss) + ss) with h | h
      · exact h
      · exfalso
        have heq : W = ss * ((W - 1) / ss) + ss := by omega
        exact hndvd ⟨(W - 1) / ss + 1, by rw [Nat.mul_add, Nat.mul_one]; omega⟩
  · intro c hc
    rw [mem_get_cells hss] at hc
    obtain ⟨_, hxW, _, hyH, hx1, hy1⟩ := hc
    omega

/-- Witness for C7 at `W = H = 5`, `S = 2`. -/
theorem C7_boundary_policy_witness :
    (0 < 5 ∧ 0 < step_size 5 2 ∧ ¬ step_size 5 2 ∣ 5) ∧
      (∃ c ∈ get_cells 5 5 (step_size 5 2), c.x0 < 5 ∧ 5 < c.x1) ∧
      ∀ c ∈ get_cells 5 5 (step_size 5 2),
        c.x1 = c.x0 + step_size 5 2 ∧ c.y1 = c.y0 + step_size 5 2 ∧
          c.x0 < 5 ∧ c.y0 < 5 ∧ c.x1 < 5 + step_size 5 2 ∧
          c.y1 < 5 + step_size 5 2 :=
  ⟨⟨by norm_num, by decide, by decide⟩,
    C7_boundary_policy 5 5 2 (by norm_num) (by decide) (by decide)⟩

/-- C8: when the running flag is set, `animate` is a silent no-op (no
state change, no thread spawned); when it is clear, `animate` sets the
flag and spawns the loop.  Consequently, in the flag machine — where a
spawn happens only on the clear-flag branch and a live loop's exit clears
the flag — every reachable flag state has at most one live animation
loop. -/
theorem C8_animate_no_second_loop (st : AppState) (s : AnimFlags) :
    (st.running = true → animate st = (st, false)) ∧
      (st.running = false → animate st = ({st with running := true}, true)) ∧
      (FlagReach s → s.active ≤ 1) :=
  ⟨fun h => by simp [animate, h], fun h => by simp [animate, h],
    fun h => flagReach_active_le_one h⟩

/-- Witness for C8: a state with the flag set is left unchanged, the
initial state spawns, and the flag state after one `animate` press has
one live loop. -/
theorem C8_animate_no_second_loop_witness :
    ({initState with running := true}.running = true ∧
        animate {initState with running := true} =
          ({initState with running := true}, false)) ∧
      (initState.running = false ∧
        animate initState = ({initState with running := true}, true)) ∧
      (FlagReach ⟨true, 1⟩ ∧ (⟨true, 1⟩ : AnimFlags).active ≤ 1) := by
  have hr : FlagReach ⟨true, 1⟩ := by
    have h := FlagReach.click FlagReach.init
    simpa [animateClick] using h
  have h1 := C8_animate_no_second_loop {initState with running := true} ⟨true, 1⟩
  have h2 := C8_animate_no_second_loop initState ⟨true, 1⟩
  exact ⟨⟨rfl, h1.1 rfl⟩, ⟨rfl, h2.2.1 rfl⟩, hr, h1.2.2 hr⟩

/-- C9: an interleaving of `reset` with a running animation loop on the
2×2 grid in which the loop fills one cell, then the whole of `reset` runs
(it sets the stop signal, redraws, sleeps, clears the stop signal and
empties the filled set) before the loop's next read of the stop flag.
After `reset` has returned (pc 4, filled set emptied, stop flag already
clear), the loop keeps going: it never observes the stop signal, walks
the remaining enumeration to the end (`animIdx = 4`) and fills three more
cells. -/
theorem C9_reset_race :
    (raceRun (get_cells 4 4 2) raceInit (raceSched.take 5)).resetPc = 4 ∧
      (raceRun (get_cells 4 4 2) raceInit (raceSched.take 5)).drawn = ∅ ∧
      (raceRun (get_cells 4 4 2) raceInit (raceSched.take 5)).stop = false ∧
      (raceRun (get_cells 4 4 2) raceInit raceSched).resetPc = 4 ∧
      (raceRun (get_cells 4 4 2) raceInit raceSched).animDone = true ∧
      (raceRun (get_cells 4 4 2) raceInit raceSched).animIdx = 4 ∧
      (raceRun (get_cells 4 4 2) raceInit raceSched).drawn.card = 3 := by
  exact ⟨by decide, by decide, by decide, by decide, by decide, by decide, by decide⟩

/-- C10: `go_click` never touches any cell's `colour` attribute — it
draws the chosen cell in `"blue"` while the attribute keeps its previous
value (the default for a never-otherwise-filled cell) — whereas
`fill_all` and the animation loop assign `cell.colour = "blue"` before
drawing. -/
theorem C10_colour_attribute (W H ss : Nat) (st : AppState) (ord : List Cell)
    (f : Nat → Bool) (c : Cell) (_hss : 0 < ss)
    (_hperm : List.Perm ord (get_cells W H ss)) :
    ((go_click st c).colour = st.colour ∧
        (go_click st c).calls = st.calls ++ [(c, "blue")]) ∧
      (go_click initState c).colour c = CELL_DEFAULT_COLOUR ∧
      (c ∈ ord → (fill_all st ord).colour c = "blue") ∧
      (st.drawn = ∅ → (∀ j, f j = false) → c ∈ ord →
        (animate_loop st ord f).colour c = "blue") := by
  refine ⟨⟨rfl, rfl⟩, rfl, fun hc => ?_, fun hd hf hc => ?_⟩
  · rw [fill_all_colour]
    simp [hc]
  · exact animGo_colour_filled hf ord 0 st c hc (by simp [hd])

/-- Witness for C10 on the 2×2 grid with cell `(0, 0, 2, 2)` and the
construction-order enumeration. -/
theorem C10_colour_attribute_witness :
    ((go_click initState ⟨0, 0, 2, 2⟩).colour = initState.colour ∧
        (go_click initState ⟨0, 0, 2, 2⟩).calls =
          initState.calls ++ [(⟨0, 0, 2, 2⟩, "blue")]) ∧
      (go_click initState ⟨0, 0, 2, 2⟩).colour ⟨0, 0, 2, 2⟩ = CELL_DEFAULT_COLOUR ∧
      ((⟨0, 0, 2, 2⟩ : Cell) ∈ get_cells 4 4 2 →
        (fill_all initState (get_cells 4 4 2)).colour ⟨0, 0, 2, 2⟩ = "blue") ∧
      (initState.drawn = ∅ → (∀ j : Nat, (fun _ => false) j = false) →
        (⟨0, 0, 2, 2⟩ : Cell) ∈ get_cells 4 4 2 →
        (animate_loop initState (get_cells 4 4 2) (fun _ => false)).colour
          ⟨0, 0, 2, 2⟩ = "blue") :=
  C10_colour_attribute 4 4 2 initState (get_cells 4 4 2) (fun _ => false)
    ⟨0, 0, 2, 2⟩ (by norm_num) (List.Perm.refl _)
